import Mathlib

/-!
Verification development for the auto_test repository: a shallow embedding of
the signature-extraction and test-synthesis pipeline (src/core/models.rs,
src/core/analyzer/rust_analyzer.rs, src/core/generator/rust_gen.rs,
src/config.rs), together with theorems settling the frozen claims about it.

Rust strings are modelled as lists of characters (`Str`); every string
operation the source uses (`trim`, `starts_with`, `ends_with`, `contains`,
`split`, `trim_end_matches`, ...) is re-implemented on that model.
-/

set_option linter.unusedVariables false

namespace AutoTest

/-- Rust strings, modelled as lists of characters. -/
abbrev Str := List Char

/-- The Unicode White_Space code points, the set tested by Rust's
char::is_whitespace (used by str::trim). -/
def rustIsWhitespace (c : Char) : Bool :=
  let n := c.toNat
  (0x9 ≤ n && n ≤ 0xD) || n == 0x20 || n == 0x85 || n == 0xA0 || n == 0x1680 ||
  (0x2000 ≤ n && n ≤ 0x200A) || n == 0x2028 || n == 0x2029 ||
  n == 0x202F || n == 0x205F || n == 0x3000

/-- Model of Rust str::trim_start. -/
def trimStart (s : Str) : Str := s.dropWhile rustIsWhitespace

/-- Model of Rust str::trim_end. -/
def trimEnd (s : Str) : Str := (s.reverse.dropWhile rustIsWhitespace).reverse

/-- Model of Rust str::trim. -/
def rustTrim (s : Str) : Str := trimEnd (trimStart s)

/-- Model of Rust str::contains(pat): `containsSub pat s` is true when `pat`
occurs as a contiguous substring of `s`. -/
def containsSub (pat : Str) : Str → Bool
  | [] => List.isPrefixOf pat []
  | c :: rest => List.isPrefixOf pat (c :: rest) || containsSub pat rest

/-- Model of Rust str::ends_with(char). -/
def endsWithChar (s : Str) (c : Char) : Bool := s.getLast? == some c

/-- Model of Rust str::starts_with(char). -/
def startsWithChar (s : Str) (c : Char) : Bool := s.head? == some c

theorem trimStart_length_le (s : Str) : (trimStart s).length ≤ s.length :=
  (List.dropWhile_sublist _).length_le

theorem trimEnd_length_le (s : Str) : (trimEnd s).length ≤ s.length := by
  have h := (List.dropWhile_sublist (l := s.reverse) rustIsWhitespace).length_le
  simpa [trimEnd] using h

theorem rustTrim_length_le (s : Str) : (rustTrim s).length ≤ s.length :=
  le_trans (trimEnd_length_le _) (trimStart_length_le s)

/-- RustGenerator::strip_generic (rust_gen.rs:508): extract the inner generic
argument of a signature shaped like `outer<...>`, by literal prefix/suffix. -/
def strip_generic (s : Str) (outer : Str) : Option Str :=
  -- the source's locals (`let s = s.trim(); let prefix = format!("{}<", outer)`)
  -- are inlined here
  if List.isPrefixOf (outer ++ ['<']) (rustTrim s) && endsWithChar (rustTrim s) '>' then
    some (((rustTrim s).drop (outer ++ ['<']).length).dropLast)
  else
    none

theorem strip_generic_length {s outer inner : Str}
    (h : strip_generic s outer = some inner) : inner.length < s.length := by
  simp only [strip_generic] at h
  split at h
  · next hc =>
    injection h with h
    have hpfx : List.IsPrefix (outer ++ ['<']) (rustTrim s) := by
      have h1 := ((Bool.and_eq_true _ _).mp hc).1
      exact List.isPrefixOf_iff_prefix.1 h1
    have hlen : outer.length + 1 ≤ (rustTrim s).length := by
      have := hpfx.length_le
      simpa using this
    have hpos : 0 < (rustTrim s).length := lt_of_lt_of_le (Nat.succ_pos _) hlen
    have : inner.length = (rustTrim s).length - (outer.length + 1) - 1 := by
      subst h
      simp [List.length_dropLast, List.length_drop]
    have hlt : (rustTrim s).length - (outer.length + 1) - 1 < (rustTrim s).length := by
      calc (rustTrim s).length - (outer.length + 1) - 1
          ≤ (rustTrim s).length - (outer.length + 1) := Nat.sub_le _ _
        _ < (rustTrim s).length := Nat.sub_lt hpos (Nat.succ_pos _)
    exact lt_of_le_of_lt (le_of_eq this) (lt_of_lt_of_le hlt (rustTrim_length_le s))
  · exact absurd h (by simp)

theorem dropWhile_amp_length_lt {t : Str} (h : startsWithChar t '&' = true) :
    (t.dropWhile (fun c => c == '&')).length < t.length := by
  cases t with
  | nil => simp [startsWithChar] at h
  | cons c rest =>
    have hc : c = '&' := by
      simpa [startsWithChar] using h
    subst hc
    have : (rest.dropWhile (fun c => c == '&')).length ≤ rest.length :=
      (List.dropWhile_sublist _).length_le
    simpa [List.dropWhile_cons] using Nat.lt_succ_of_le this

/-- RustGenerator::param_value (rust_gen.rs:451): generate a value expression
for a given type string. -/
def param_value (typ : Str) : Str :=
  let t := rustTrim typ
  if t = "String".toList then "\"test\".to_string()".toList
  else if t = "&str".toList then "\"test\"".toList
  else if ["usize".toList, "u32".toList, "u64".toList, "i32".toList, "i64".toList].contains t then
    "0".toList
  else if t = "bool".toList then "false".toList
  else if t = "()".toList then "()".toList
  else
    match h1 : strip_generic t "Option".toList with
    | some inner => "Some(".toList ++ param_value inner ++ ")".toList
    | none =>
      match h2 : strip_generic t "Result".toList with
      | some inner =>
        -- inner is "T, E"; take before the first comma, then trim
        let ok_type := rustTrim (inner.takeWhile (fun c => !(c == ',')))
        "Ok(".toList ++ param_value ok_type ++ ")".toList
      | none =>
        match h3 : strip_generic t "Vec".toList with
        | some inner => "vec![".toList ++ param_value inner ++ "]".toList
        | none =>
          if h4 : startsWithChar t '&' = true then
            let inner := rustTrim (t.dropWhile (fun c => c == '&'))
            "\x7b let tmp = ".toList ++ param_value inner ++ "; &tmp \x7d".toList
          else if (t.head?.map Char.isUpper).getD false then
            t ++ "::default()".toList
          else
            "Default::default()".toList
termination_by typ.length
decreasing_by
  · exact lt_of_lt_of_le (strip_generic_length h1) (rustTrim_length_le typ)
  · have h5 : ok_type.length ≤ inner.length :=
      le_trans (rustTrim_length_le _) (List.takeWhile_sublist _).length_le
    exact lt_of_le_of_lt h5
      (lt_of_lt_of_le (strip_generic_length h2) (rustTrim_length_le typ))
  · exact lt_of_lt_of_le (strip_generic_length h3) (rustTrim_length_le typ)
  · exact lt_of_le_of_lt (rustTrim_length_le _)
      (lt_of_lt_of_le (dropWhile_amp_length_lt h4) (rustTrim_length_le typ))

/-- Rust str::replace for a non-empty pattern: replace every non-overlapping
occurrence of `pat` by `rep`, scanning left to right. (The two uses in the
source have the non-empty patterns "\\" and "::".) -/
def str_replace (s : Str) (pat rep : Str) : Str :=
  if h : pat ≠ [] ∧ List.isPrefixOf pat s then
    rep ++ str_replace (s.drop pat.length) pat rep
  else
    match s with
    | [] => []
    | c :: rest => c :: str_replace rest pat rep
termination_by s.length
decreasing_by
  · have hle : pat.length ≤ s.length := (List.isPrefixOf_iff_prefix.1 h.2).length_le
    have hpat : 0 < pat.length := List.length_pos.2 h.1
    have hs : 0 < s.length := lt_of_lt_of_le hpat hle
    simpa [List.length_drop] using Nat.sub_lt hs hpat
  · simp [List.length_cons]

/-- Rust str::trim_end_matches for a non-empty pattern: repeatedly remove the
suffix `pat`. -/
def trim_end_matches (s : Str) (pat : Str) : Str :=
  if h : pat ≠ [] ∧ List.isSuffixOf pat s then
    trim_end_matches (s.take (s.length - pat.length)) pat
  else s
termination_by s.length
decreasing_by
  have hle : pat.length ≤ s.length := (List.isSuffixOf_iff_suffix.1 h.2).length_le
  have hpat : 0 < pat.length := List.length_pos.2 h.1
  have hs : 0 < s.length := lt_of_lt_of_le hpat hle
  calc (List.take (s.length - pat.length) s).length
      = min (s.length - pat.length) s.length := List.length_take _ _
    _ ≤ s.length - pat.length := Nat.min_le_left _ _
    _ < s.length := Nat.sub_lt hs hpat

/-- Rust str::split(sep): split on a separator character (keeping empty
segments, as Rust does). -/
def splitOnChar : Str → Char → List Str
  | [], _ => [[]]
  | c :: rest, sep =>
    if c == sep then [] :: splitOnChar rest sep
    else
      match splitOnChar rest sep with
      | [] => [[c]]
      | h :: t => (c :: h) :: t

/-- Decimal rendering of a natural number (for the `param_{i}` locals). -/
def natToStr (n : Nat) : Str := (Nat.repr n).toList

/-- The numeric value of a decimal digit character (proof infrastructure for
the injectivity of natToStr, i.e. distinctness of the `param_{i}` locals). -/
def decChar (c : Char) : Nat := c.toNat - '0'.toNat

/-- One step of reading a decimal numeral most-significant-digit first. -/
def digitStep (acc : Nat) (c : Char) : Nat := 10 * acc + decChar c

/-- Read a decimal numeral, starting from the seed value `s`. -/
def evalDigitsFrom (s : Nat) (l : List Char) : Nat := l.foldl digitStep s

/-- The value obtained by appending the decimal digits of `n` to a numeral
whose value so far is `s` (the specification of Nat.toDigitsCore's effect on
the numeral being read back). -/
def prependVal (s n : Nat) : Nat :=
  if h : n < 10 then 10 * s + n
  else 10 * prependVal s (n / 10) + n % 10
termination_by n
decreasing_by exact Nat.div_lt_self (by omega) (by omega)

/-! ## Data model (src/core/models.rs) -/

/-- models.rs:36 TypeIntern — an interned type string. The `Arc<str>` payload
is modelled by the string it dereferences to. -/
structure TypeIntern where
  arc : Str
deriving DecidableEq

/-- The keys pre-populated in TypeIntern's static intern pool
(models.rs:68, `common_types`). -/
def intern_pool_keys : List Str :=
  ["String".toList, "&str".toList, "i32".toList, "u32".toList, "i64".toList,
   "u64".toList, "usize".toList, "bool".toList, "()".toList, "Vec<T>".toList,
   "Option<T>".toList, "Result<T, E>".toList, "PathBuf".toList, "Uuid".toList,
   "Url".toList, "DateTime".toList, "Config".toList, "Args".toList]

/-- The static intern pool: each common type maps to an interned copy of
itself (models.rs:73, `map.insert(typ, TypeIntern(typ.into()))`). -/
def intern_pool : List (Str × TypeIntern) :=
  intern_pool_keys.map (fun t => (t, ⟨t⟩))

/-- TypeIntern::new (models.rs:59): look the string up in the static pool and
reuse the pooled allocation on a hit, otherwise allocate fresh. -/
def TypeIntern.new (s : Str) : TypeIntern :=
  match intern_pool.find? (fun p => p.1 == s) with
  | some p => p.2
  | none => ⟨s⟩

/-- TypeIntern::as_str (models.rs:88). -/
def TypeIntern.as_str (t : TypeIntern) : Str := t.arc

/-- models.rs ParamInfo. -/
structure ParamInfo where
  name : Str
  typ : TypeIntern
deriving DecidableEq

/-- models.rs FunctionInfo. -/
structure FunctionInfo where
  name : Str
  params : List ParamInfo
  returns : TypeIntern
  file : Str
  is_async : Bool
deriving DecidableEq

/-- models.rs ProjectInfo. -/
structure ProjectInfo where
  language : Str
  root : Str
  functions : List FunctionInfo
deriving DecidableEq

/-- models.rs TestFile. -/
structure TestFile where
  path : Str
  content : Str
deriving DecidableEq

/-! ## Configuration (src/config.rs)

Only the legacy flat fields are modelled: they are the ones the analyzer and
generator read (config.rs:41-58). The hierarchical sections, file loading and
merging are external collaborators per the spec. -/

structure Config where
  output_dir : Str
  skip_functions : List Str
  type_mappings : List (Str × Str)
  include_private : Bool
  parallel : Bool
  parallel_chunk_size : Nat
  respect_gitignore : Bool
  skip_patterns : List Str
  timeout_seconds : Nat
deriving DecidableEq

/-- Config::default (config.rs:260), restricted to the modelled fields. -/
def Config.defaultConfig : Config where
  output_dir := "tests".toList
  skip_functions := []
  type_mappings := []
  include_private := false
  parallel := true
  parallel_chunk_size := 25
  respect_gitignore := true
  skip_patterns := ["**/target/**".toList, "**/.git/**".toList, "**/node_modules/**".toList]
  timeout_seconds := 300

/-- Config::get_type_mapping (config.rs:438): exact-key lookup in the
type-override table. The HashMap is modelled as an association list. -/
def Config.get_type_mapping (cfg : Config) (type_name : Str) : Option Str :=
  (cfg.type_mappings.find? (fun p => p.1 == type_name)).map Prod.snd

/-- Config::should_skip_function (config.rs:451): skip when the name contains
any configured skip substring. -/
def Config.should_skip_function (cfg : Config) (function_name : Str) : Bool :=
  cfg.skip_functions.any (fun skip => containsSub skip function_name)

/-! ## Generator (src/core/generator/rust_gen.rs) -/

/-- RustGenerator::generate_smart_value_enhanced (rust_gen.rs:300).
Note: Rust's char::is_uppercase tests the Unicode uppercase property; every
signature in this development is ASCII, where Char.isUpper agrees with it. -/
def generate_smart_value_enhanced (type_str : Str) (config : Config) : Str :=
  let t := rustTrim type_str
  match config.get_type_mapping t with
  | some mapped => mapped
  | none =>
    if containsSub "PathBuf".toList t then
      "std::path::PathBuf::from(\".\")".toList
    else if containsSub "Uuid".toList t then
      "uuid::Uuid::new_v4()".toList
    else if containsSub "Url".toList t then
      "url::Url::parse(\"https://example.com\").unwrap()".toList
    else if containsSub "DateTime".toList t then
      "chrono::Utc::now()".toList
    else if (t.head?.map Char.isUpper).getD false then
      -- rust_gen.rs:330: the Config/Args test selects between two identical
      -- format!("{}::default()", type_str) arms
      if containsSub "Config".toList t || containsSub "Args".toList t then
        t ++ "::default()".toList
      else
        t ++ "::default()".toList
    else
      param_value t

/-- RustGenerator::generate_assertions_enhanced (rust_gen.rs:356). -/
def generate_assertions_enhanced (return_type : Str) (config : Config) : Str :=
  let t := rustTrim return_type
  if t = "()".toList then
    "        // Function returns unit type - no assertion needed".toList
  else if List.isPrefixOf "Result<".toList t then
    "        assert!(result.is_ok(), \"Function should succeed\");".toList
  else if List.isPrefixOf "Option<".toList t then
    "        assert!(result.is_some(), \"Function should return Some value\");".toList
  else if List.isPrefixOf "Vec<".toList t then
    "        assert!(!result.is_empty(), \"Function should return non-empty vector\");".toList
  else if t = "String".toList || t = "&str".toList then
    "        assert!(!result.is_empty(), \"Function should return non-empty string\");".toList
  else if ["i32".toList, "i64".toList, "u32".toList, "u64".toList, "usize".toList].any
      (fun num => containsSub num t) then
    "        assert!(result >= 0, \"Function should return non-negative number\");".toList
  else if ["f32".toList, "f64".toList].any (fun num => containsSub num t) then
    "        assert!(!result.is_nan(), \"Function should return valid float\");".toList
  else if t = "bool".toList then
    "        // Boolean result - add specific assertion based on expected behavior".toList
  else if containsSub "PathBuf".toList t || containsSub "&Path".toList t then
    "        assert!(result.exists(), \"Function should return existing path\");".toList
  else if containsSub "Uuid".toList t then
    "        assert!(!result.is_nil(), \"Function should return valid UUID\");".toList
  else if containsSub "Url".toList t then
    "        assert!(result.scheme() != \"\", \"Function should return valid URL\");".toList
  else
    "        // TODO: Add appropriate assertion for type: ".toList ++ t

/-- RustGenerator::generate_params_enhanced (rust_gen.rs:278): one
value-synthesizer invocation per parameter, each bound to `param_{i}`;
returns (arrange block, comma-separated argument list). -/
def generate_params_enhanced (params : List ParamInfo) (config : Config) : Str × Str :=
  if params.isEmpty then
    ("        let project_path = \"/tmp/test_project\";".toList, "project_path".toList)
  else
    let pieces := params.enum.map (fun ip =>
      let param_name := "param_".toList ++ natToStr ip.1
      let value := generate_smart_value_enhanced ip.2.typ.as_str config
      ("        let ".toList ++ param_name ++ " = ".toList ++ value ++ ";\n".toList,
       param_name))
    ((pieces.map Prod.fst).flatten, List.intercalate ", ".toList (pieces.map Prod.snd))

/-- RustGenerator::render_test_enhanced (rust_gen.rs:237): render one test
function, choosing the tokio test attribute for async functions and the
hard-coded library entry point as the invoked path. -/
def render_test_enhanced (func : FunctionInfo) (module_path : Str) (config : Config) : Str :=
  let test_name := "test_".toList ++ func.name ++ "_integration".toList
  let full_fn_path := "auto_test::generate_tests_for_project".toList
  let ap := generate_params_enhanced func.params config
  let ta := if func.is_async then ("#[tokio::test]".toList, ".await".toList)
            else ("#[test]".toList, "".toList)
  let assertions := generate_assertions_enhanced func.returns.as_str config
  "    ".toList ++ ta.1 ++ " fn ".toList ++ test_name
    ++ "() \x7b\n        // Arrange\n".toList ++ ap.1
    ++ "\n\n        // Act\n        let result = ".toList ++ full_fn_path
    ++ "(".toList ++ ap.2 ++ ")".toList ++ ta.2
    ++ ";\n\n        // Assert\n".toList ++ assertions ++ "\n    \x7d".toList

/-- RustGenerator::module_path_from_file (rust_gen.rs:410). -/
def module_path_from_file (file_path : Str) : Str :=
  let path := str_replace file_path "\\".toList "/".toList
  let path :=
    if List.isPrefixOf "./src/".toList path then path.drop 6
    else if List.isPrefixOf "src/".toList path then path.drop 4
    else path
  if path = "lib.rs".toList then []
  else
    let path :=
      if List.isSuffixOf "/mod.rs".toList path then trim_end_matches path "/mod.rs".toList
      else trim_end_matches path ".rs".toList
    List.intercalate "::".toList ((splitOnChar path '/').filter (fun seg => !seg.isEmpty))

/-- RustGenerator::test_file_name_from_module (rust_gen.rs:438). -/
def test_file_name_from_module (module_path : Str) : Str :=
  if module_path.isEmpty then "integration_tests.rs".toList
  else str_replace module_path "::".toList "_".toList ++ "_tests.rs".toList

/-- Model of std Path::join for the relative path fragments used here. -/
def path_join (a b : Str) : Str :=
  if startsWithChar b '/' then b
  else if a.isEmpty then b
  else if endsWithChar a '/' then a ++ b
  else a ++ "/".toList ++ b

/-- RustGenerator::generate_test_for_func_with_config (rust_gen.rs:115):
always returns Ok with the assembled test file. -/
def generate_test_for_func_with_config (func : FunctionInfo) (config : Config)
    (project_path : Str) : Except Str TestFile :=
  let module_path := module_path_from_file func.file
  let test_file_name := test_file_name_from_module module_path
  let content := "use test_project::*;\n\n".toList
      ++ render_test_enhanced func module_path config ++ "\n".toList
  let output_path := path_join (path_join project_path config.output_dir) test_file_name
  Except.ok { path := output_path, content := content }

/-- Fixed-size chunking, the denotation of rayon's `par_chunks`: sublists of
size `n` (the final one possibly shorter), in order. -/
def chunks (n : Nat) (l : List α) : List (List α) :=
  if l.isEmpty || n == 0 then []
  else l.take n :: chunks n (l.drop n)
termination_by l.length
decreasing_by
  have hl : ¬(l.isEmpty || n == 0) = true := by assumption
  have hln : l ≠ [] ∧ n ≠ 0 := by
    constructor
    · intro hnil; apply hl; simp [hnil]
    · intro hn; apply hl; simp [hn]
  have hpos : 0 < l.length := List.length_pos.2 hln.1
  have hnpos : 0 < n := Nat.pos_of_ne_zero hln.2
  simpa [List.length_drop] using Nat.sub_lt hpos hnpos

/-- RustGenerator::process_function_chunk (rust_gen.rs:107). -/
def process_function_chunk (functions : List FunctionInfo) (config : Config)
    (project_path : Str) : List (Except Str TestFile) :=
  functions.map (fun func => generate_test_for_func_with_config func config project_path)

/-- The post-analysis body of RustGenerator::generate_with_config
(rust_gen.rs:40-103): retain non-skipped functions, process them in parallel
chunks (concatenated in chunk order — rayon's deterministic collect) or
sequentially, then keep the successful results in order. -/
def generate_from_project (project : ProjectInfo) (config : Config)
    (project_path : Str) : List TestFile :=
  let functions := project.functions.filter (fun f => !(config.should_skip_function f.name))
  if functions.isEmpty then []
  else
    let results : List (Except Str TestFile) :=
      if config.parallel then
        ((chunks config.parallel_chunk_size functions).map
          (fun chunk => process_function_chunk chunk config project_path)).flatten
      else
        functions.map (fun func => generate_test_for_func_with_config func config project_path)
    results.filterMap (fun r => match r with | .ok tf => some tf | .error _ => none)

/-! ## Analyzer (src/core/analyzer/rust_analyzer.rs)

The syn AST is modelled by the features the extractor inspects: item kind,
visibility token text, identifier, inputs (receiver / typed pattern with a
reference marker), declared output tokens, and the async qualifier. Parsing
itself (syn) and the directory walk (walkdir / the ignore crate) are external
collaborators; their results are inputs to the embedded functions. -/

/-- The type of a typed fn argument, as the extractor distinguishes it:
a reference (whose referent token text is kept) or any other type (its token
text). -/
inductive SynType where
  | reference (elem_tokens : Str)
  | other (tokens : Str)
deriving DecidableEq

/-- The pattern of a typed fn argument: a plain identifier or anything else. -/
inductive SynPat where
  | ident (name : Str)
  | otherPat
deriving DecidableEq

/-- One input of a fn signature: a method receiver or a typed argument. -/
inductive SynFnArg where
  | receiver
  | typed (pat : SynPat) (ty : SynType)
deriving DecidableEq

/-- A top-level fn item. `vis_tokens` is the token text of the visibility
(`"pub"` for a plain pub fn); `output` is `none` for ReturnType::Default. -/
structure SynItemFn where
  vis_tokens : Str
  ident : Str
  inputs : List SynFnArg
  output : Option Str
  asyncness : Bool
deriving DecidableEq

/-- A top-level item: a fn, or anything else (ignored by the extractor). -/
inductive SynItem where
  | fn (f : SynItemFn)
  | other
deriving DecidableEq

/-- A parsed file. -/
structure SynFile where
  items : List SynItem
deriving DecidableEq

/-- Parameter extraction (rust_analyzer.rs:225-249): a receiver becomes the
self/Self sentinel pair; a typed argument keeps its identifier (or the `_`
placeholder) and its type tokens, with a leading `&` for references. -/
def extract_param : SynFnArg → ParamInfo
  | .receiver => { name := "self".toList, typ := TypeIntern.new "Self".toList }
  | .typed pat ty =>
    let name := match pat with
      | .ident n => n
      | .otherPat => "_".toList
    let typ_str := match ty with
      | .reference elem => "&".toList ++ elem
      | .other tokens => tokens
    { name := name, typ := TypeIntern.new typ_str }

/-- The FunctionInfo built for one retained fn item (rust_analyzer.rs:257). -/
def build_descriptor (file_path : Str) (f : SynItemFn) : FunctionInfo :=
  { name := f.ident
    params := f.inputs.map extract_param
    returns := TypeIntern.new (f.output.getD "()".toList)
    file := file_path
    is_async := f.asyncness }

/-- extract_functions_from_ast (rust_analyzer.rs:206): keep a fn item when it
is public or include_private is set, and its name matches no skip substring. -/
def extract_functions_from_ast (ast : SynFile) (file_path : Str) (config : Config) :
    List FunctionInfo :=
  ast.items.filterMap (fun item =>
    match item with
    | .fn func =>
      let is_public := func.vis_tokens == "pub".toList
      if !is_public && !config.include_private then none
      else if config.should_skip_function func.ident then none
      else some (build_descriptor file_path func)
    | .other => none)

/-- The fn items of a file, in order. -/
def fn_items (ast : SynFile) : List SynItemFn :=
  ast.items.filterMap (fun item =>
    match item with
    | .fn f => some f
    | .other => none)

/-- Model of std Path::starts_with(".") : true exactly when the path's first
component is the current-directory component `.` (component-wise comparison,
so `".git"` does not start with `"."` but `"./src/lib.rs"` and `"."` do). -/
def path_starts_with_cur_dir (p : Str) : Bool :=
  p == ".".toList || List.isPrefixOf "./".toList p

/-- is_standard_ignored_path (rust_analyzer.rs:118). -/
def is_standard_ignored_path (path : Str) : Bool :=
  containsSub "/target/".toList path ||
  containsSub "/.git/".toList path ||
  containsSub "/node_modules/".toList path ||
  path_starts_with_cur_dir path ||
  containsSub "/build/".toList path ||
  containsSub "/dist/".toList path

/-- should_skip_file (rust_analyzer.rs:97). The glob crate is external: the
behaviour of `Pattern::new(pat)` + `matches(path)` (with a failed compile
matching nothing) is a parameter `glob_matches`. -/
def should_skip_file (glob_matches : Str → Str → Bool) (file_path : Str)
    (config : Config) : Bool :=
  if is_standard_ignored_path file_path then true
  else config.skip_patterns.any (fun pat => glob_matches pat file_path)

/-- Model of std Path::extension: the part of the final path component after
its last `.`, provided that dot is not the component's first character;
`none` for `..`, dotless names and hidden files such as `.gitignore`. -/
def rust_extension (p : Str) : Option Str :=
  match ((splitOnChar p '/').filter (fun c => !c.isEmpty)).getLast? with
  | none => none
  | some name =>
    if name = "..".toList then none
    else if containsSub ".".toList (name.drop 1) then
      some ((name.reverse.takeWhile (fun c => !(c == '.'))).reverse)
    else none

/-- What the filesystem and syn report for one walked entry: unreadable,
unparsable, or a parsed file. -/
inductive FileOutcome where
  | readErr
  | parseErr
  | parsed (ast : SynFile)
deriving DecidableEq

/-- One entry yielded by the directory walker (external: walkdir or the
ignore crate), together with the outcome of reading and parsing it. -/
structure WalkEntry where
  path : Str
  is_dir : Bool
  outcome : FileOutcome
deriving DecidableEq

/-- One iteration of the loop in analyze_rust_project_filtered
(rust_analyzer.rs:152-196): skip directories, non-`.rs` files, configured
skips and already-processed paths; record the path, then append the file's
extracted functions (read and parse failures only warn and contribute
nothing). The accumulator is (functions so far, processed paths). -/
def analyzer_step (glob_matches : Str → Str → Bool) (config : Config)
    (acc : List FunctionInfo × List Str) (entry : WalkEntry) :
    List FunctionInfo × List Str :=
  if entry.is_dir then acc
  else if !(rust_extension entry.path == some "rs".toList) then acc
  else if should_skip_file glob_matches entry.path config then acc
  else if acc.2.contains entry.path then acc
  else
    let processed := acc.2 ++ [entry.path]
    match entry.outcome with
    | .readErr => (acc.1, processed)
    | .parseErr => (acc.1, processed)
    | .parsed ast => (acc.1 ++ extract_functions_from_ast ast entry.path config, processed)

/-- analyze_rust_project_filtered (rust_analyzer.rs:129): fold the analyzer
step over the walker's entries; always returns Ok with the aggregated
ProjectInfo. -/
def analyze_rust_project_filtered (glob_matches : Str → Str → Bool)
    (project_root : Str) (walker : List WalkEntry) (config : Config) :
    Except Str ProjectInfo :=
  Except.ok { language := "rust".toList, root := project_root,
              functions := (walker.foldl (analyzer_step glob_matches config) ([], [])).1 }

/-- RustGenerator::generate_with_config (rust_gen.rs:33): analyze the project,
then generate (the analyzer's error would propagate through `?`). -/
def generate_with_config (glob_matches : Str → Str → Bool) (walker : List WalkEntry)
    (project_path : Str) (config : Config) : Except Str (List TestFile) :=
  match analyze_rust_project_filtered glob_matches project_path walker config with
  | .error e => .error e
  | .ok project => .ok (generate_from_project project config project_path)

/-! ## Helper lemmas -/

instance {e a : Type} [DecidableEq e] [DecidableEq a] : DecidableEq (Except e a) := fun x y =>
  match x, y with
  | .ok u, .ok v => if h : u = v then isTrue (by simp [h]) else isFalse (by simp [h])
  | .error u, .error v => if h : u = v then isTrue (by simp [h]) else isFalse (by simp [h])
  | .ok _, .error _ => isFalse (by simp)
  | .error _, .ok _ => isFalse (by simp)

theorem head_ne_ne {a b : Char} (h : ¬a = b) (l1 l2 : Str) : ¬(a :: l1 = b :: l2) := by
  intro he
  injection he with h1 _
  exact h h1

theorem rustTrim_sandwich {a b : Char} (mid : Str)
    (ha : rustIsWhitespace a = false) (hb : rustIsWhitespace b = false) :
    rustTrim (a :: (mid ++ [b])) = a :: (mid ++ [b]) := by
  unfold rustTrim trimStart trimEnd
  rw [List.dropWhile_cons, ha]
  simp only [Bool.false_eq_true, if_false]
  have h2 : (a :: (mid ++ [b])).reverse = b :: (mid.reverse ++ [a]) := by
    simp
  rw [h2, List.dropWhile_cons, hb]
  simp

theorem strip_generic_wrap (c : Char) (rest T : Str)
    (hw : rustIsWhitespace c = false) :
    strip_generic ((c :: rest) ++ '<' :: (T ++ ['>'])) (c :: rest) = some T := by
  have hshape : (c :: rest) ++ '<' :: (T ++ ['>'])
      = c :: ((rest ++ '<' :: T) ++ ['>']) := by
    simp
  have htrim : rustTrim ((c :: rest) ++ '<' :: (T ++ ['>']))
      = (c :: rest) ++ '<' :: (T ++ ['>']) := by
    rw [hshape]
    exact rustTrim_sandwich _ hw (by decide)
  have hassoc : (c :: rest) ++ '<' :: (T ++ ['>'])
      = ((c :: rest) ++ ['<']) ++ (T ++ ['>']) := by
    simp
  have hpfx : List.isPrefixOf ((c :: rest) ++ ['<']) ((c :: rest) ++ '<' :: (T ++ ['>'])) = true := by
    rw [hassoc]
    exact List.isPrefixOf_iff_prefix.2 (List.prefix_append _ _)
  have hend : endsWithChar ((c :: rest) ++ '<' :: (T ++ ['>'])) '>' = true := by
    have hconc : (c :: rest) ++ '<' :: (T ++ ['>'])
        = ((c :: rest) ++ '<' :: T) ++ ['>'] := by
      simp
    rw [endsWithChar, hconc, List.getLast?_concat]
    rfl
  unfold strip_generic
  rw [htrim, hpfx, hend]
  simp only [Bool.and_self, if_true, Option.some.injEq]
  rw [hassoc, List.drop_left, List.dropLast_concat]

theorem param_value_option (T : Str) :
    param_value ("Option<".toList ++ T ++ [ '>' ])
      = "Some(".toList ++ param_value T ++ ")".toList := by
  have htrim : rustTrim ("Option<".toList ++ T ++ ['>'])
      = "Option<".toList ++ T ++ ['>'] := by
    have h := rustTrim_sandwich (a := 'O') (b := '>') ("ption<".toList ++ T)
      (by decide) (by decide)
    have hsh : 'O' :: (("ption<".toList ++ T) ++ ['>']) = "Option<".toList ++ T ++ ['>'] := by
      simp
    rw [← hsh]
    exact h
  have hstrip : strip_generic ("Option<".toList ++ T ++ ['>']) "Option".toList = some T := by
    have h := strip_generic_wrap 'O' "ption".toList T (by decide)
    have hsh : ('O' :: "ption".toList) ++ '<' :: (T ++ ['>']) = "Option<".toList ++ T ++ ['>'] := by
      simp
    rw [hsh] at h
    exact h
  have hne1 : ¬("Option<".toList ++ T ++ ['>'] = "String".toList) :=
    head_ne_ne (by decide) _ _
  have hne2 : ¬("Option<".toList ++ T ++ ['>'] = "&str".toList) :=
    head_ne_ne (by decide) _ _
  have hne3 : ¬("Option<".toList ++ T ++ ['>'] = "bool".toList) :=
    head_ne_ne (by decide) _ _
  have hne4 : ¬("Option<".toList ++ T ++ ['>'] = "()".toList) :=
    head_ne_ne (by decide) _ _
  have hnm : ("Option<".toList ++ T ++ ['>']) ∉
      [("usize".toList : Str), "u32".toList, "u64".toList, "i32".toList, "i64".toList] := by
    intro hm
    simp only [List.mem_cons, List.not_mem_nil, or_false] at hm
    rcases hm with h | h | h | h | h
    all_goals exact head_ne_ne (by decide) _ _ h
  have hcon : (["usize".toList, "u32".toList, "u64".toList, "i32".toList,
      "i64".toList].contains ("Option<".toList ++ T ++ ['>'])) = false := by
    simp
  conv_lhs => rw [param_value.eq_def]
  dsimp only
  rw [htrim, if_neg hne1, if_neg hne2, hcon, if_neg hne3, if_neg hne4]
  simp only [Bool.false_eq_true, if_false]
  split
  · next inner h1 =>
    rw [hstrip] at h1
    injection h1 with h1
    rw [h1]
  · next h1 =>
    rw [hstrip] at h1
    exact absurd h1 (by simp)

/-! ## Claim theorems -/

set_option maxRecDepth 400000

unseal param_value str_replace trim_end_matches chunks

/-- Claim C9: type-signature interning is text-preserving — for every string
`s`, `TypeIntern::new(s).as_str()` equals `s`, so interning never alters the
type text stored in a descriptor. -/
theorem claim_C9_intern_roundtrip (s : Str) : (TypeIntern.new s).as_str = s := by
  unfold TypeIntern.new
  cases hf : intern_pool.find? (fun p => p.1 == s) with
  | none => rfl
  | some p =>
    have hpred := @List.find?_some (Str × TypeIntern) (fun q => q.1 == s) p intern_pool hf
    have hmem : p ∈ intern_pool := List.mem_of_find?_eq_some hf
    have h1 : p.1 = s := by
      simp only [beq_iff_eq] at hpred
      exact hpred
    have h2 : p.2.arc = p.1 := by
      simp only [intern_pool, List.mem_map] at hmem
      obtain ⟨t, _, hpt⟩ := hmem
      rw [← hpt]
    show p.2.arc = s
    rw [h2, h1]

/-- Claim C4: for every policy and type signature, if the trimmed signature
exactly matches a key of the policy's type-override table, the synthesized
value equals that override entry's literal text, regardless of which built-in
rule would otherwise apply. -/
theorem claim_C4_override_precedence (cfg : Config) (type_str v : Str)
    (h : cfg.get_type_mapping (rustTrim type_str) = some v) :
    generate_smart_value_enhanced type_str cfg = v := by
  simp only [generate_smart_value_enhanced]
  rw [h]

/-- Configuration with one override entry, mapping the signature `String`
(which the built-in rules would synthesize as `String::default()`) to a
custom literal. -/
def override_cfg : Config :=
  { Config.defaultConfig with type_mappings := [("String".toList, "CUSTOM_VALUE".toList)] }

theorem claim_C4_witness :
    override_cfg.get_type_mapping (rustTrim "String".toList) = some "CUSTOM_VALUE".toList
    ∧ generate_smart_value_enhanced "String".toList override_cfg = "CUSTOM_VALUE".toList :=
  ⟨by decide,
   claim_C4_override_precedence override_cfg "String".toList "CUSTOM_VALUE".toList (by decide)⟩

/-- Claim C8: the value synthesizer is pure and deterministic — its output is
a function of the signature text and the policy's override table alone, so
any two policies with equal override tables produce byte-identical output on
every signature (and in particular two invocations with the same policy do). -/
theorem claim_C8_value_synthesizer_pure (cfg1 cfg2 : Config) (type_str : Str)
    (h : cfg1.type_mappings = cfg2.type_mappings) :
    generate_smart_value_enhanced type_str cfg1
      = generate_smart_value_enhanced type_str cfg2 := by
  simp only [generate_smart_value_enhanced, Config.get_type_mapping, h]

/-- Configuration differing from the default in every modelled field except
the override table. -/
def cfg_variant : Config :=
  { output_dir := "out".toList, skip_functions := ["x".toList],
    type_mappings := [], include_private := true, parallel := false,
    parallel_chunk_size := 7, respect_gitignore := false,
    skip_patterns := [], timeout_seconds := 1 }

theorem claim_C8_witness :
    Config.defaultConfig.type_mappings = cfg_variant.type_mappings
    ∧ generate_smart_value_enhanced "Vec<String>".toList Config.defaultConfig
      = generate_smart_value_enhanced "Vec<String>".toList cfg_variant :=
  ⟨by decide, claim_C8_value_synthesizer_pure _ _ _ (by decide)⟩

/-- Claim C2 counterexample: at `T = String` with the empty override table,
the value synthesizer maps `Option<String>` to `Option<String>::default()`
(the capitalized-nominal fallback fires before the optional-wrapper rule),
not to `Some(...)` around the recursive synthesis of `String`. -/
theorem claim_C2_counterexample :
    generate_smart_value_enhanced "Option<String>".toList Config.defaultConfig
        = "Option<String>::default()".toList
    ∧ ¬(generate_smart_value_enhanced "Option<String>".toList Config.defaultConfig
        = "Some(".toList
          ++ generate_smart_value_enhanced "String".toList Config.defaultConfig
          ++ ")".toList)
    ∧ ¬(generate_smart_value_enhanced "Option<String>".toList Config.defaultConfig
        = "Some(".toList ++ param_value "String".toList ++ ")".toList) := by
  decide

/-- Claim C2 (amended): the optional-wrapper rule lives in the inner fallback
routine param_value, where it holds universally: for every type string `T`,
`param_value(Option<T>)` is `Some(param_value(T))`. The top-level synthesizer
generate_smart_value_enhanced checks its capitalized-nominal fallback first
and therefore maps such signatures to the default-instance form instead. -/
theorem claim_C2_amended (T : Str) :
    param_value ("Option<".toList ++ T ++ [ '>' ])
      = "Some(".toList ++ param_value T ++ ")".toList
    ∧ generate_smart_value_enhanced "Option<String>".toList Config.defaultConfig
      = "Option<String>::default()".toList :=
  ⟨param_value_option T, by decide⟩

/-- Claim C3 counterexample: with the empty override table the top-level
value synthesizer maps `Result<String, String>` to
`Result<String, String>::default()` — not to the success wrapper `Ok(...)`
around a text literal. -/
theorem claim_C3_counterexample :
    generate_smart_value_enhanced "Result<String, String>".toList Config.defaultConfig
        = "Result<String, String>::default()".toList
    ∧ ¬(generate_smart_value_enhanced "Result<String, String>".toList Config.defaultConfig
        = "Ok(\"test\".to_string())".toList)
    ∧ ¬(List.isPrefixOf "Ok(".toList
        (generate_smart_value_enhanced "Result<String, String>".toList
          Config.defaultConfig) = true) := by
  decide

/-- Claim C3 (amended): for `Result<String, String>` with an empty override
table, the top-level synthesizer produces the default-instance form (its
capitalized-nominal fallback fires before the success-wrapper rule); the
inner routine param_value produces `Ok("test".to_string())`, the success
wrapper around the default short text literal; and the assertion synthesizer
for that return type asserts success via `result.is_ok()`. -/
theorem claim_C3_amended :
    generate_smart_value_enhanced "Result<String, String>".toList Config.defaultConfig
      = "Result<String, String>::default()".toList
    ∧ param_value "Result<String, String>".toList = "Ok(\"test\".to_string())".toList
    ∧ generate_assertions_enhanced "Result<String, String>".toList Config.defaultConfig
      = "        assert!(result.is_ok(), \"Function should succeed\");".toList := by
  decide

theorem extract_functions_filter_map (ast : SynFile) (file_path : Str) (cfg : Config) :
    extract_functions_from_ast ast file_path cfg
      = ((fn_items ast).filter (fun f =>
          (f.vis_tokens == "pub".toList || cfg.include_private)
            && !cfg.should_skip_function f.ident)).map (build_descriptor file_path) := by
  unfold extract_functions_from_ast fn_items
  rw [List.filter_filterMap, List.map_filterMap]
  apply List.filterMap_congr
  intro item _
  cases item with
  | other => rfl
  | fn f =>
    cases hv : (f.vis_tokens == "pub".toList) <;>
      cases hp : cfg.include_private <;>
        cases hs : cfg.should_skip_function f.ident <;>
          simp [Option.filter, hv, hp, hs]

/-- A public fn item named greet, with no inputs. -/
def pub_greet_fn : SynItemFn :=
  { vis_tokens := "pub".toList, ident := "greet".toList, inputs := [],
    output := none, asyncness := false }

/-- A file containing only the public function greet. -/
def pub_greet_file : SynFile := { items := [SynItem.fn pub_greet_fn] }

/-- The default policy with the skip list ["greet"]. -/
def skip_greet_cfg : Config :=
  { Config.defaultConfig with skip_functions := ["greet".toList] }

/-- Claim C5 counterexample: under a policy whose name-skip list contains
"greet", a file with one public function greet yields zero descriptors even
though the function is declared public — refuting "extracted if and only if
public or include-private" as a property of every policy. -/
theorem claim_C5_counterexample :
    pub_greet_fn.vis_tokens = "pub".toList
    ∧ skip_greet_cfg.include_private = false
    ∧ extract_functions_from_ast pub_greet_file "src/lib.rs".toList skip_greet_cfg = [] := by
  decide

/-- A file with one public function alpha and one non-public function beta. -/
def one_pub_one_priv_file : SynFile :=
  { items :=
      [SynItem.fn { vis_tokens := "pub".toList, ident := "alpha".toList, inputs := [],
                    output := none, asyncness := false },
       SynItem.fn { vis_tokens := [], ident := "beta".toList, inputs := [],
                    output := none, asyncness := false }] }

/-- Claim C5 (amended): a fn item is extracted iff (it is declared public OR
the include-private flag is set) AND its name matches no configured skip
substring; in particular, with include_private = false and an empty skip
list, a file with one public and one non-public function yields exactly one
descriptor. -/
theorem claim_C5_amended (ast : SynFile) (file_path : Str) (cfg : Config) :
    extract_functions_from_ast ast file_path cfg
      = ((fn_items ast).filter (fun f =>
          (f.vis_tokens == "pub".toList || cfg.include_private)
            && !cfg.should_skip_function f.ident)).map (build_descriptor file_path)
    ∧ (extract_functions_from_ast one_pub_one_priv_file "src/lib.rs".toList
        Config.defaultConfig).length = 1 :=
  ⟨extract_functions_filter_map ast file_path cfg, by decide⟩

/-- Claim C10: the file-skip predicate returns true for every path whose
first component is the current-directory component "." (as every entry walked
under the relative project root "." is), so filtered project analysis over a
walk whose entries are all "."-rooted skips every candidate file and yields a
project descriptor with zero functions. -/
theorem claim_C10_curdir_skips_all :
    (∀ (glob_matches : Str → Str → Bool) (p : Str) (cfg : Config),
      path_starts_with_cur_dir p = true →
      should_skip_file glob_matches p cfg = true)
    ∧ (∀ (glob_matches : Str → Str → Bool) (root : Str) (walker : List WalkEntry)
        (cfg : Config),
      (∀ e ∈ walker, path_starts_with_cur_dir e.path = true) →
      analyze_rust_project_filtered glob_matches root walker cfg
        = Except.ok { language := "rust".toList, root := root, functions := [] }) := by
  have hskip : ∀ (g : Str → Str → Bool) (p : Str) (cfg : Config),
      path_starts_with_cur_dir p = true → should_skip_file g p cfg = true := by
    intro g p cfg hp
    unfold should_skip_file is_standard_ignored_path
    rw [hp]
    simp
  constructor
  · exact hskip
  · intro g root walker cfg hall
    have hstep : ∀ (acc : List FunctionInfo × List Str) (e : WalkEntry),
        path_starts_with_cur_dir e.path = true →
        analyzer_step g cfg acc e = acc := by
      intro acc e he
      unfold analyzer_step
      by_cases hd : e.is_dir
      · simp [hd]
      · by_cases hx : (rust_extension e.path == some "rs".toList)
        · simp [hd, hx, hskip g e.path cfg he]
        · simp only [hd, hx, Bool.false_eq_true, if_false, Bool.not_false, if_true]
    have hfold : ∀ (w : List WalkEntry),
        (∀ e ∈ w, path_starts_with_cur_dir e.path = true) →
        ∀ acc, w.foldl (analyzer_step g cfg) acc = acc := by
      intro w
      induction w with
      | nil => intro _ acc; rfl
      | cons e rest ih =>
        intro h acc
        rw [List.foldl_cons, hstep acc e (h e (List.mem_cons_self _ _))]
        exact ih (fun x hx => h x (List.mem_cons_of_mem _ hx)) acc
    unfold analyze_rust_project_filtered
    rw [hfold walker hall ([], [])]

/-- A walker that visited one parseable file under the relative root ".",
holding one public function. -/
def curdir_walker : List WalkEntry :=
  [{ path := "./src/lib.rs".toList, is_dir := false,
     outcome := FileOutcome.parsed
       { items := [SynItem.fn { vis_tokens := "pub".toList, ident := "hello".toList,
                                inputs := [], output := none, asyncness := false }] } }]

theorem claim_C10_witness :
    (path_starts_with_cur_dir "./src/lib.rs".toList = true
      ∧ should_skip_file (fun _ _ => false) "./src/lib.rs".toList Config.defaultConfig = true)
    ∧ analyze_rust_project_filtered (fun _ _ => false) ".".toList curdir_walker
        Config.defaultConfig
        = Except.ok { language := "rust".toList, root := ".".toList, functions := [] } :=
  ⟨⟨by decide, claim_C10_curdir_skips_all.1 _ _ _ (by decide)⟩,
   claim_C10_curdir_skips_all.2 _ _ _ _ (by decide)⟩

theorem contains_append_single (S : List Str) (p q : Str) :
    (S ++ [p]).contains q = (S.contains q || q == p) := by
  apply Bool.eq_iff_iff.mpr
  simp [List.mem_append]

theorem foldl_step_processed_ext (glob_matches : Str → Str → Bool) (cfg : Config) :
    ∀ (post : List WalkEntry) (fns : List FunctionInfo) (S1 S2 : List Str),
    (∀ e ∈ post, S1.contains e.path = S2.contains e.path) →
    (post.foldl (analyzer_step glob_matches cfg) (fns, S1)).1
      = (post.foldl (analyzer_step glob_matches cfg) (fns, S2)).1 := by
  intro post
  induction post with
  | nil => intro fns S1 S2 h; rfl
  | cons e rest ih =>
    intro fns S1 S2 h
    have he := h e (List.mem_cons_self _ _)
    have ht : ∀ e2 ∈ rest, S1.contains e2.path = S2.contains e2.path :=
      fun e2 hm => h e2 (List.mem_cons_of_mem _ hm)
    simp only [List.foldl_cons]
    have hstep : ∀ (S1 S2 : List Str), S1.contains e.path = S2.contains e.path →
        (analyzer_step glob_matches cfg (fns, S1) e
          = (fns, S1) ∧ analyzer_step glob_matches cfg (fns, S2) e = (fns, S2))
        ∨ (∃ fns2, analyzer_step glob_matches cfg (fns, S1) e = (fns2, S1 ++ [e.path])
          ∧ analyzer_step glob_matches cfg (fns, S2) e = (fns2, S2 ++ [e.path])) := by
      intro S1 S2 hc
      unfold analyzer_step
      by_cases hd : e.is_dir
      · left; simp [hd]
      · by_cases hx : (rust_extension e.path == some "rs".toList)
        · have hxp : rust_extension e.path = some ['r', 's'] := by simpa using hx
          by_cases hk : should_skip_file glob_matches e.path cfg
          · left; simp [hd, hx, hk]
          · by_cases hm : S1.contains e.path
            · have hm2 : S2.contains e.path = true := by rw [← hc]; exact hm
              have hm1p : e.path ∈ S1 := by simpa using hm
              have hm2p : e.path ∈ S2 := by simpa using hm2
              left
              simp [hd, hx, hxp, hk, hm1p, hm2p]
            · have hm2 : S2.contains e.path = false := by
                rw [← hc]; exact Bool.of_not_eq_true hm
              have hm1p : e.path ∉ S1 := by simpa using hm
              have hm2p : e.path ∉ S2 := by simpa using hm2
              right
              cases ho : e.outcome <;>
                simp [hd, hx, hxp, hk, hm1p, hm2p, ho]
        · have hxp : rust_extension e.path ≠ some ['r', 's'] := by simpa using hx
          left
          simp [hd, hx, hxp]
    rcases hstep S1 S2 he with ⟨h1, h2⟩ | ⟨fns2, h1, h2⟩
    · rw [h1, h2]; exact ih fns S1 S2 ht
    · rw [h1, h2]
      apply ih
      intro e2 hm2
      rw [contains_append_single, contains_append_single, ht e2 hm2]

/-- Claim C6: a file whose content fails to parse contributes zero
descriptors: whole-project extraction on a walk containing the failing entry
equals extraction on the same walk without it (so sibling files are
unaffected), and the run still returns successfully. The side condition
requires the failing path not to reappear later in the walk (a later
duplicate of the same path would be deduplicated against it). -/
theorem claim_C6_parse_failure_isolated (glob_matches : Str → Str → Bool)
    (root : Str) (cfg : Config) (pre post : List WalkEntry) (e : WalkEntry)
    (he : e.outcome = FileOutcome.parseErr)
    (hpost : ∀ e2 ∈ post, e2.path ≠ e.path) :
    analyze_rust_project_filtered glob_matches root (pre ++ e :: post) cfg
      = analyze_rust_project_filtered glob_matches root (pre ++ post) cfg
    ∧ (analyze_rust_project_filtered glob_matches root (pre ++ e :: post) cfg).isOk = true := by
  refine ⟨?_, rfl⟩
  unfold analyze_rust_project_filtered
  have hfold : ((pre ++ e :: post).foldl (analyzer_step glob_matches cfg) ([], [])).1
      = ((pre ++ post).foldl (analyzer_step glob_matches cfg) ([], [])).1 := by
    rw [List.foldl_append, List.foldl_append, List.foldl_cons]
    set acc := pre.foldl (analyzer_step glob_matches cfg)
      (([] : List FunctionInfo), ([] : List Str)) with hacc
    clear_value acc
    obtain ⟨fns, S⟩ := acc
    by_cases hd : e.is_dir
    · have hse : analyzer_step glob_matches cfg (fns, S) e = (fns, S) := by
        unfold analyzer_step; simp [hd]
      rw [hse]
    · by_cases hx : (rust_extension e.path == some "rs".toList)
      · have hxp : rust_extension e.path = some ['r', 's'] := by simpa using hx
        by_cases hk : should_skip_file glob_matches e.path cfg
        · have hse : analyzer_step glob_matches cfg (fns, S) e = (fns, S) := by
            unfold analyzer_step; simp [hd, hx, hk]
          rw [hse]
        · by_cases hm : S.contains e.path
          · have hmp : e.path ∈ S := by simpa using hm
            have hse : analyzer_step glob_matches cfg (fns, S) e = (fns, S) := by
              unfold analyzer_step; simp [hd, hx, hxp, hk, hmp]
            rw [hse]
          · have hmp : e.path ∉ S := by simpa using hm
            have hse : analyzer_step glob_matches cfg (fns, S) e
                = (fns, S ++ [e.path]) := by
              unfold analyzer_step; simp [hd, hx, hxp, hk, hmp, he]
            rw [hse]
            apply foldl_step_processed_ext
            intro e2 hm2
            rw [contains_append_single]
            have hne : (e2.path == e.path) = false := by
              simp only [beq_eq_false_iff_ne, ne_eq]
              exact hpost e2 hm2
            rw [hne, Bool.or_false]
      · have hxp : rust_extension e.path ≠ some ['r', 's'] := by simpa using hx
        have hse : analyzer_step glob_matches cfg (fns, S) e = (fns, S) := by
          unfold analyzer_step; simp [hd, hx, hxp]
        rw [hse]
  rw [hfold]

/-- A walked file that fails to parse. -/
def c6_bad_entry : WalkEntry :=
  { path := "proj/src/bad.rs".toList, is_dir := false, outcome := FileOutcome.parseErr }

/-- A sibling file that parses and contains one public function. -/
def c6_good_entry : WalkEntry :=
  { path := "proj/src/good.rs".toList, is_dir := false,
    outcome := FileOutcome.parsed
      { items := [SynItem.fn { vis_tokens := "pub".toList, ident := "gamma".toList,
                               inputs := [], output := none, asyncness := false }] } }

theorem claim_C6_witness :
    c6_bad_entry.outcome = FileOutcome.parseErr
    ∧ analyze_rust_project_filtered (fun _ _ => false) "proj".toList
        (c6_bad_entry :: [c6_good_entry]) Config.defaultConfig
      = analyze_rust_project_filtered (fun _ _ => false) "proj".toList
        [c6_good_entry] Config.defaultConfig :=
  ⟨by decide,
   (claim_C6_parse_failure_isolated (fun _ _ => false) "proj".toList Config.defaultConfig
      [] [c6_good_entry] c6_bad_entry (by decide) (by decide)).1⟩

theorem chunks_flatten {α : Type} (n : Nat) (hn : 0 < n) (l : List α) :
    (chunks n l).flatten = l := by
  have haux : ∀ (m : Nat) (l : List α), l.length ≤ m → (chunks n l).flatten = l := by
    intro m
    induction m with
    | zero =>
      intro l hl
      have hnil : l = [] := List.length_eq_zero.1 (Nat.le_zero.1 hl)
      subst hnil
      rw [chunks]
      simp
    | succ m ih =>
      intro l hl
      rw [chunks]
      by_cases hne : l.isEmpty
      · have hnil : l = [] := List.isEmpty_iff.1 hne
        subst hnil
        simp
      · have hcond : (l.isEmpty || n == 0) = false := by
          have hn0 : (n == 0) = false := by
            simp
            omega
          simp [hne, hn0]
        rw [hcond]
        simp only [Bool.false_eq_true, if_false, List.flatten_cons]
        have hdrop : (l.drop n).length ≤ m := by
          rw [List.length_drop]
          omega
        rw [ih (l.drop n) hdrop, List.take_append_drop]
  exact haux l.length l (le_refl _)

theorem generate_from_project_canonical (project : ProjectInfo) (cfg : Config)
    (project_path : Str) (hn : 0 < cfg.parallel_chunk_size) :
    generate_from_project project cfg project_path
      = (project.functions.filter (fun f => !(cfg.should_skip_function f.name))).filterMap
          (fun func => (generate_test_for_func_with_config func cfg project_path).toOption) := by
  unfold generate_from_project
  by_cases hemp : (project.functions.filter (fun f => !(cfg.should_skip_function f.name))).isEmpty
  · have hnil := List.isEmpty_iff.1 hemp
    rw [hnil]
    simp [hemp]
  · simp only [hemp, Bool.false_eq_true, if_false]
    by_cases hp : cfg.parallel
    · simp only [hp, if_true]
      unfold process_function_chunk
      rw [← List.map_flatten, chunks_flatten cfg.parallel_chunk_size hn, List.filterMap_map]
      rfl
    · simp only [hp, Bool.false_eq_true, if_false]
      rw [List.filterMap_map]
      rfl

/-- Claim C7: with a positive chunk size, the sequence of synthesized test
files produced with parallelism enabled equals the one produced in sequential
mode, and either equals the in-order map over the retained functions (chunked
processing concatenated in chunk order is the in-order map, independent of
scheduling, whose denotation rayon's ordered collect guarantees). -/
theorem claim_C7_parallel_equals_sequential (project : ProjectInfo) (cfg : Config)
    (project_path : Str) (hn : 0 < cfg.parallel_chunk_size) :
    generate_from_project project { cfg with parallel := true } project_path
      = generate_from_project project { cfg with parallel := false } project_path
    ∧ generate_from_project project cfg project_path
      = (project.functions.filter (fun f => !(cfg.should_skip_function f.name))).filterMap
          (fun func => (generate_test_for_func_with_config func cfg project_path).toOption) := by
  constructor
  · have h1 := generate_from_project_canonical project { cfg with parallel := true }
      project_path hn
    have h2 := generate_from_project_canonical project { cfg with parallel := false }
      project_path hn
    have hmid : (project.functions.filter
          (fun f => !(Config.should_skip_function { cfg with parallel := true } f.name))).filterMap
          (fun func =>
            (generate_test_for_func_with_config func { cfg with parallel := true }
              project_path).toOption)
        = (project.functions.filter
          (fun f => !(Config.should_skip_function { cfg with parallel := false } f.name))).filterMap
          (fun func =>
            (generate_test_for_func_with_config func { cfg with parallel := false }
              project_path).toOption) := rfl
    exact h1.trans (hmid.trans h2.symm)
  · exact generate_from_project_canonical project cfg project_path hn

/-- A project with two retained functions, one of them async. -/
def c7_project : ProjectInfo :=
  { language := "rust".toList, root := "proj".toList,
    functions :=
      [{ name := "alpha".toList, params := [], returns := TypeIntern.new "()".toList,
         file := "src/a.rs".toList, is_async := false },
       { name := "beta".toList,
         params := [{ name := "x".toList, typ := TypeIntern.new "u32".toList }],
         returns := TypeIntern.new "String".toList, file := "src/b.rs".toList,
         is_async := true }] }

theorem claim_C7_witness :
    0 < Config.defaultConfig.parallel_chunk_size
    ∧ generate_from_project c7_project { Config.defaultConfig with parallel := true }
        "proj".toList
      = generate_from_project c7_project { Config.defaultConfig with parallel := false }
        "proj".toList :=
  ⟨by decide,
   (claim_C7_parallel_equals_sequential c7_project Config.defaultConfig "proj".toList
     (by decide)).1⟩

/-- The syn fn item for `pub fn greet(name: String) -> String` (no async
qualifier). -/
def greet_fn_item : SynItemFn :=
  { vis_tokens := "pub".toList, ident := "greet".toList,
    inputs := [SynFnArg.typed (SynPat.ident "name".toList) (SynType.other "String".toList)],
    output := some "String".toList, asyncness := false }

/-- A walk of a project root containing one source file whose only item is
the public function greet. -/
def greet_walker : List WalkEntry :=
  [{ path := "proj/src/lib.rs".toList, is_dir := false,
     outcome := FileOutcome.parsed { items := [SynItem.fn greet_fn_item] } }]

/-- The content of the single test file the orchestrator renders for the
greet project under the default policy. -/
def greet_content : Str :=
  ("use test_project::*;\n\n    #[test] fn test_greet_integration() \x7b\n        // Arrange\n        let param_0 = String::default();\n\n\n        // Act\n        let result = auto_test::generate_tests_for_project(param_0);\n\n        // Assert\n        assert!(!result.is_empty(), \"Function should return non-empty string\");\n    \x7d\n").toList

/-- Claim C1 counterexample: on the greet project the orchestrator produces
exactly one test file, but its act line invokes the hard-coded library entry
point rather than the function under test — the content contains no
invocation "greet(" — and its arrange line binds String::default() rather
than a text literal (the content contains no "test" text literal at all). -/
theorem claim_C1_counterexample :
    generate_with_config (fun _ _ => false) greet_walker "proj".toList
        Config.defaultConfig
      = Except.ok [{ path := "proj/tests/proj_src_lib_tests.rs".toList,
                     content := greet_content }]
    ∧ containsSub "greet(".toList greet_content = false
    ∧ containsSub "let param_0 = String::default();".toList greet_content = true
    ∧ containsSub "\"test\"".toList greet_content = false := by
  refine ⟨by decide, by decide, by decide, by decide⟩

theorem decChar_digitChar {d : Nat} (hd : d < 10) : decChar (Nat.digitChar d) = d := by
  interval_cases d <;> decide

theorem evalDigitsFrom_cons (s : Nat) (c : Char) (l : List Char) :
    evalDigitsFrom s (c :: l) = evalDigitsFrom (digitStep s c) l := rfl

theorem toDigitsCore_eval (fuel : Nat) :
    ∀ (n : Nat) (acc : List Char) (s : Nat), n < fuel →
    evalDigitsFrom s (Nat.toDigitsCore 10 fuel n acc)
      = evalDigitsFrom (prependVal s n) acc := by
  induction fuel with
  | zero => intro n acc s h; exact absurd h (Nat.not_lt_zero n)
  | succ fuel ih =>
    intro n acc s h
    simp only [Nat.toDigitsCore]
    by_cases h0 : n / 10 = 0
    · have hn10 : n < 10 := by
        by_contra hx
        have : 1 ≤ n / 10 := (Nat.one_le_div_iff (by omega)).2 (by omega)
        omega
      have hp : prependVal s n = 10 * s + n := by
        rw [prependVal.eq_def, dif_pos hn10]
      rw [if_pos h0, evalDigitsFrom_cons]
      have hstep : digitStep s (Nat.digitChar (n % 10)) = 10 * s + n := by
        unfold digitStep
        rw [decChar_digitChar (Nat.mod_lt n (by omega)), Nat.mod_eq_of_lt hn10]
      rw [hstep, hp]
    · have hge : 10 ≤ n := by
        by_contra hlt
        exact h0 (Nat.div_eq_of_lt (by omega))
      have hlt' : n / 10 < n := Nat.div_lt_self (by omega) (by omega)
      have hfuel : n / 10 < fuel := by omega
      rw [if_neg h0, ih (n / 10) (Nat.digitChar (n % 10) :: acc) s hfuel,
        evalDigitsFrom_cons]
      have hstep : digitStep (prependVal s (n / 10)) (Nat.digitChar (n % 10))
          = 10 * prependVal s (n / 10) + n % 10 := by
        unfold digitStep
        rw [decChar_digitChar (Nat.mod_lt n (by omega))]
      rw [hstep]
      have hp : prependVal s n = 10 * prependVal s (n / 10) + n % 10 := by
        rw [prependVal.eq_def]
        rw [dif_neg (by omega)]
      rw [hp]

theorem prependVal_zero (n : Nat) : prependVal 0 n = n := by
  induction n using Nat.strong_induction_on with
  | _ n ih =>
    rw [prependVal.eq_def]
    by_cases h : n < 10
    · rw [dif_pos h]
      omega
    · have hlt : n / 10 < n := Nat.div_lt_self (by omega) (by omega)
      rw [dif_neg h, ih (n / 10) hlt]
      exact Nat.div_add_mod n 10

theorem evalDigitsFrom_natToStr (n : Nat) : evalDigitsFrom 0 (natToStr n) = n := by
  have hrepr : natToStr n = Nat.toDigitsCore 10 (n + 1) n [] := rfl
  rw [hrepr, toDigitsCore_eval (n + 1) n [] 0 (Nat.lt_succ_self n)]
  exact prependVal_zero n

theorem natToStr_injective : Function.Injective natToStr := by
  intro m n h
  have hm := evalDigitsFrom_natToStr m
  have hn := evalDigitsFrom_natToStr n
  rw [← hm, ← hn, h]

theorem param_names_nodup (params : List ParamInfo) :
    (params.enum.map (fun ip => "param_".toList ++ natToStr ip.1)).Nodup := by
  have h1 : params.enum.map (fun ip => "param_".toList ++ natToStr ip.1)
      = (params.enum.map Prod.fst).map (fun i => "param_".toList ++ natToStr i) := by
    rw [List.map_map]
    rfl
  rw [h1, List.enum_map_fst]
  refine List.Nodup.map ?_ (List.nodup_range _)
  intro i j hij
  exact natToStr_injective (List.append_cancel_left hij)

theorem generate_params_enhanced_cons (p : ParamInfo) (ps : List ParamInfo) (cfg : Config) :
    generate_params_enhanced (p :: ps) cfg
      = (((p :: ps).enum.map (fun ip =>
            "        let param_".toList ++ natToStr ip.1 ++ " = ".toList
              ++ generate_smart_value_enhanced ip.2.typ.as_str cfg ++ ";\n".toList)).flatten,
         List.intercalate ", ".toList
           ((p :: ps).enum.map (fun ip => "param_".toList ++ natToStr ip.1))) := by
  unfold generate_params_enhanced
  simp [List.map_map, Function.comp, List.append_assoc]
  exact ⟨rfl, rfl⟩

theorem render_test_enhanced_decomposition (func : FunctionInfo) (module_path : Str)
    (cfg : Config) :
    render_test_enhanced func module_path cfg
      = "    ".toList
        ++ (if func.is_async then "#[tokio::test]".toList else "#[test]".toList)
        ++ " fn test_".toList ++ func.name
        ++ "_integration() \x7b\n        // Arrange\n".toList
        ++ (generate_params_enhanced func.params cfg).1
        ++ "\n\n        // Act\n        let result = auto_test::generate_tests_for_project(".toList
        ++ (generate_params_enhanced func.params cfg).2
        ++ ")".toList
        ++ (if func.is_async then ".await".toList else "".toList)
        ++ ";\n\n        // Assert\n".toList
        ++ generate_assertions_enhanced func.returns.as_str cfg
        ++ "\n    \x7d".toList := by
  cases hb : func.is_async <;>
    simp [render_test_enhanced, hb, List.append_assoc]

/-- Claim C1 (amended): for every retained function the rendered test is a
test declaration (the async test form exactly when the asynchronous flag is
set), followed by an arrange block, an act line invoking the fixed library
entry point auto_test::generate_tests_for_project — not the function under
test — and an assert block from the assertion synthesizer on the return
type. For a function with parameters the arrange block binds the value
synthesizer's output for the i-th parameter type to the local `param_i`
(one invocation per parameter, the locals pairwise distinct) and the act
line passes exactly those locals; for a zero-parameter function the arrange
block instead binds the hard-coded local project_path and the act line
passes project_path. On the greet project the orchestrator produces exactly
one test file with a synchronous test declaration, an arrange line binding
String::default() (not a text literal), that act line, and a
non-empty-string assertion. -/
theorem claim_C1_amended :
    (∀ (func : FunctionInfo) (module_path : Str) (cfg : Config),
      List.isPrefixOf
        ("    ".toList
          ++ (if func.is_async then "#[tokio::test]".toList else "#[test]".toList)
          ++ " fn ".toList)
        (render_test_enhanced func module_path cfg) = true)
    ∧ (∀ (func : FunctionInfo) (module_path : Str) (cfg : Config),
      render_test_enhanced func module_path cfg
        = "    ".toList
          ++ (if func.is_async then "#[tokio::test]".toList else "#[test]".toList)
          ++ " fn test_".toList ++ func.name
          ++ "_integration() \x7b\n        // Arrange\n".toList
          ++ (generate_params_enhanced func.params cfg).1
          ++ "\n\n        // Act\n        let result = auto_test::generate_tests_for_project(".toList
          ++ (generate_params_enhanced func.params cfg).2
          ++ ")".toList
          ++ (if func.is_async then ".await".toList else "".toList)
          ++ ";\n\n        // Assert\n".toList
          ++ generate_assertions_enhanced func.returns.as_str cfg
          ++ "\n    \x7d".toList)
    ∧ (∀ (p : ParamInfo) (ps : List ParamInfo) (cfg : Config),
      generate_params_enhanced (p :: ps) cfg
        = (((p :: ps).enum.map (fun ip =>
              "        let param_".toList ++ natToStr ip.1 ++ " = ".toList
                ++ generate_smart_value_enhanced ip.2.typ.as_str cfg ++ ";\n".toList)).flatten,
           List.intercalate ", ".toList
             ((p :: ps).enum.map (fun ip => "param_".toList ++ natToStr ip.1))))
    ∧ (∀ (params : List ParamInfo),
      (params.enum.map (fun ip => "param_".toList ++ natToStr ip.1)).Nodup)
    ∧ (∀ (cfg : Config),
      generate_params_enhanced [] cfg
        = ("        let project_path = \"/tmp/test_project\";".toList,
           "project_path".toList))
    ∧ generate_with_config (fun _ _ => false) greet_walker "proj".toList
        Config.defaultConfig
      = Except.ok [{ path := "proj/tests/proj_src_lib_tests.rs".toList,
                     content := greet_content }]
    ∧ containsSub "#[test] fn test_greet_integration()".toList greet_content = true
    ∧ containsSub "        let param_0 = String::default();\n".toList greet_content = true
    ∧ containsSub "let result = auto_test::generate_tests_for_project(param_0);".toList
        greet_content = true
    ∧ containsSub "assert!(!result.is_empty(), \"Function should return non-empty string\");".toList
        greet_content = true := by
  refine ⟨?_, render_test_enhanced_decomposition, generate_params_enhanced_cons,
    param_names_nodup, fun cfg => rfl,
    by decide, by decide, by decide, by decide, by decide⟩
  intro func module_path cfg
  have hrefl : ∀ (X : Str), List.isPrefixOf X X = true :=
    fun X => List.isPrefixOf_iff_prefix.2 (List.prefix_refl X)
  have ext : ∀ (X Y t : Str), List.isPrefixOf X Y = true →
      List.isPrefixOf X (Y ++ t) = true :=
    fun X Y t h => List.isPrefixOf_iff_prefix.2
      ((List.isPrefixOf_iff_prefix.1 h).trans (List.prefix_append Y t))
  cases hb : func.is_async <;>
    simp only [render_test_enhanced, hb, Bool.false_eq_true, eq_self_iff_true,
      if_true, if_false] <;>
    · iterate 12 apply ext
      exact hrefl _

end AutoTest
